import Mathlib

/-!
Verification of the guild-movement tracker (`src/tracker.py`).

The Python module keeps a persisted mapping from player name to last-known
guild name (`players.json`), scrapes a fresh snapshot, diffs the two with
`diff_guilds`, posts the resulting messages to a Discord webhook, and then
saves the fresh snapshot.  This file gives a shallow embedding of the
pure/state-machine content of that module:

* Python `Dict[str, str]` becomes an association list `List (String × String)`
  with first-match lookup (`dictGet`); a genuine dict has no duplicate keys,
  which appears as `Nodup` hypotheses where a claim needs it.
* `diff_guilds` is embedded as a structural recursion over the snapshot,
  producing structured `ChangeEvent`s; `render` reproduces the exact message
  strings of the source so that `diff_guilds_messages` is the source function.
* The state store (`load_state`/`save_state`) is embedded against an abstract
  file state: the stdlib JSON codec is an external boundary, so a file is
  `missing`, `valid data`, or `malformed`.  `save_state` is embedded as the
  sequence of filesystem operations the source performs (a direct truncating
  open followed by a write of the key-sorted mapping).
* `mainRun` embeds the orchestration in `main`, with the fallible external
  calls (fetch+parse, webhook post, save) as explicit outcomes.
-/

namespace GuildMovements

/-- A Python `Dict[str, str]` as an association list (insertion order kept). -/
abbrev Dict := List (String × String)

/-- `d.get k` of a Python dict: the first binding of `k`, if any. -/
def dictGet : Dict → String → Option String
  | [], _ => none
  | (k, v) :: rest, key => if k = key then some v else dictGet rest key

/-- `d.get k dflt` of a Python dict. -/
def dictGetD (d : Dict) (key dflt : String) : String :=
  (dictGet d key).getD dflt

/-- The key list of the dict. -/
def dictKeys (d : Dict) : List String := d.map (·.1)

/-- A single guild-membership change, as classified by `diff_guilds`. -/
inductive ChangeEvent where
  | joined (player newGuild : String)
  | left (player oldGuild : String)
  | transferred (player oldGuild newGuild : String)
deriving DecidableEq, Repr

/-- The player a change event reports about. -/
def eventPlayer : ChangeEvent → String
  | .joined p _ => p
  | .left p _ => p
  | .transferred p _ _ => p

/-- The exact message string the source formats for an event. -/
def render : ChangeEvent → String
  | .joined p g => "🟢 " ++ p ++ " ist der Gilde " ++ g ++ " beigetreten."
  | .left p g => "🔴 " ++ p ++ " hat die Gilde " ++ g ++ " verlassen."
  | .transferred p og ng => "🟡 " ++ p ++ " ist von " ++ og ++ " zu " ++ ng ++ " gewechselt."

/-- The body of the `for name, new_guild in new.items()` loop of
`diff_guilds`: the (zero or one) events emitted for one snapshot entry. -/
def entryEvents (old : Dict) (name new_guild : String) : List ChangeEvent :=
  let old_guild := dictGetD old name ""
  if old_guild = new_guild then []
  else if old_guild = "" ∧ new_guild ≠ "" then [ChangeEvent.joined name new_guild]
  else if old_guild ≠ "" ∧ new_guild = "" then [ChangeEvent.left name old_guild]
  else if old_guild ≠ "" ∧ new_guild ≠ "" then
    [ChangeEvent.transferred name old_guild new_guild]
  else []

/-- `diff_guilds(old, new)` from the source, iterating the snapshot in order;
only players of the new snapshot are inspected, a missing old entry reads as
`""`. -/
def diff_guilds (old : Dict) : Dict → List ChangeEvent
  | [] => []
  | (name, new_guild) :: rest => entryEvents old name new_guild ++ diff_guilds old rest

/-- The message-string list the source function actually returns. -/
def diff_guilds_messages (old new : Dict) : List String :=
  (diff_guilds old new).map render

/-- The events of a list that report about player `p`. -/
def eventsFor (p : String) (evts : List ChangeEvent) : List ChangeEvent :=
  evts.filter (fun e => eventPlayer e = p)

/-! ### State store -/

/-- What the state file can hold, with the stdlib JSON codec as the external
boundary: absent, a JSON object of strings, or content `json.load` rejects. -/
inductive FileState where
  | missing
  | valid (data : Dict)
  | malformed
deriving DecidableEq

/-- A Python exception escaping a call. -/
inductive PyExn where
  | jsonDecodeError
deriving DecidableEq

/-- `load_state`: `{}` when the file does not exist, otherwise `json.load`,
which returns the stored mapping or raises on malformed content. -/
def load_state : FileState → Except PyExn Dict
  | .missing => .ok []
  | .valid data => .ok data
  | .malformed => .error .jsonDecodeError

/-- Insert one binding into a key-sorted association list. -/
def insertSorted (kv : String × String) : Dict → Dict
  | [] => [kv]
  | hd :: tl => if kv.1 ≤ hd.1 then kv :: hd :: tl else hd :: insertSorted kv tl

/-- The key order `json.dump(..., sort_keys=True)` writes the mapping in. -/
def sortKeys : Dict → Dict
  | [] => []
  | kv :: rest => insertSorted kv (sortKeys rest)

/-- One filesystem operation of the state store. -/
inductive FsOp where
  | openTruncate (path : String)
  | writeContent (path : String) (data : Dict)
  | renameFile (src dst : String)
deriving DecidableEq

/-- `save_state`: `path.open("w")` truncates the target file in place, then
`json.dump` writes the key-sorted mapping into it.  No temporary file and no
rename appear in the source. -/
def save_state (path : String) (data : Dict) : List FsOp :=
  [FsOp.openTruncate path, FsOp.writeContent path (sortKeys data)]

/-- Effect of one filesystem operation on the file contents at each path; a
truncated-but-unwritten file is unreadable by `json.load`. -/
def applyOp (fs : String → FileState) : FsOp → String → FileState
  | .openTruncate p, q => if q = p then .malformed else fs q
  | .writeContent p d, q => if q = p then .valid d else fs q
  | .renameFile src dst, q =>
    if q = dst then fs src else if q = src then .missing else fs q

/-- Run a sequence of filesystem operations. -/
def runOps (fs : String → FileState) : List FsOp → String → FileState
  | [] => fs
  | op :: rest => runOps (applyOp fs op) rest

/-! ### Orchestrator -/

/-- Observable outcome of one run of `main` that returns normally. -/
structure RunResult where
  exitCode : Nat
  /-- The mapping handed to a completed `save_state`, if one happened. -/
  saved : Option Dict
  /-- The events whose messages were delivered to the webhook. -/
  posted : List ChangeEvent
  /-- The events whose messages `main` computed (and logs). -/
  events : List ChangeEvent
deriving DecidableEq

/-- `main` from the source.  Fetch+parse failure returns 1 before touching
state; `load_state` runs outside any `try`, so its exception escapes; the
webhook post is attempted only when a URL is configured and messages exist,
and its failure is swallowed; the fresh snapshot (not a merge) is saved, a
save failure returning 1. -/
def mainRun (fetchResult : Except Unit Dict) (stateFile : FileState)
    (webhookUrl : Option String) (postOk : Bool) (saveOk : Bool) :
    Except PyExn RunResult :=
  match fetchResult with
  | .error _ => .ok { exitCode := 1, saved := none, posted := [], events := [] }
  | .ok current =>
    match load_state stateFile with
    | .error e => .error e
    | .ok old =>
      let messages := diff_guilds old current
      let posted := if webhookUrl.isSome && !messages.isEmpty && postOk then messages else []
      if saveOk then
        .ok { exitCode := 0, saved := some current, posted := posted, events := messages }
      else
        .ok { exitCode := 1, saved := none, posted := posted, events := messages }

/-- Exit status of the process: an exception escaping `main` makes the
interpreter exit with status 1. -/
def runExitCode : Except PyExn RunResult → Nat
  | .error _ => 1
  | .ok r => r.exitCode

/-- Overwrite one old binding with the value the snapshot holds for its key,
if any (helper for `mergedState`). -/
def mergeFn (new : Dict) (kv : String × String) : String × String :=
  match dictGet new kv.1 with
  | some g => (kv.1, g)
  | none => kv

/-- Modelled from the spec: the `merged` component of `reconcile(old, new)`
(§4.1 step 3), which is absent from the source — `old` with every key of
`new` overwritten by the value in `new`, keys missing from `new` kept unchanged,
newly seen keys appended. -/
def mergedState (old new : Dict) : Dict :=
  old.map (mergeFn new) ++ new.filter (fun kv => !(dictKeys old).contains kv.1)

/-- The mapping a completed run handed to `save_state`, if it reached one. -/
def savedOf : Except PyExn RunResult → Option Dict
  | .error _ => none
  | .ok r => r.saved

/-- The events a run computed (empty when it aborted before reconciling). -/
def eventsOf : Except PyExn RunResult → List ChangeEvent
  | .error _ => []
  | .ok r => r.events

/-- The events whose messages a run delivered to the webhook. -/
def postedOf : Except PyExn RunResult → List ChangeEvent
  | .error _ => []
  | .ok r => r.posted

/-- The per-player classification the spec states (for claim C3): exactly one event
when the snapshot guild differs from the stored guild, Joined when the old
value is empty, Left when the new one is, Transferred otherwise. -/
def classifyChange (p oldGuild newGuild : String) : List ChangeEvent :=
  if newGuild = oldGuild then []
  else if oldGuild = "" then [ChangeEvent.joined p newGuild]
  else if newGuild = "" then [ChangeEvent.left p oldGuild]
  else [ChangeEvent.transferred p oldGuild newGuild]

/-- Joined events for every snapshot player with a non-empty guild: what
`diff_guilds` produces against an empty previous state. -/
def joinedOnly (s : Dict) : List ChangeEvent :=
  s.filterMap (fun kv => if kv.2 = "" then none else some (ChangeEvent.joined kv.1 kv.2))

/-! ### Lookup lemmas -/

theorem dictGet_eq_none_of_not_mem (d : Dict) (k : String) (h : k ∉ dictKeys d) :
    dictGet d k = none := by
  induction d with
  | nil => rfl
  | cons hd tl ih =>
    obtain ⟨k0, v0⟩ := hd
    have hne : k0 ≠ k := by
      intro hk
      exact h (hk ▸ List.mem_cons_self _ _)
    have htl : k ∉ dictKeys tl := fun hm => h (List.mem_cons_of_mem _ hm)
    simp [dictGet, hne, ih htl]

theorem dictGet_append_some {a : Dict} (b : Dict) {k v : String}
    (h : dictGet a k = some v) : dictGet (a ++ b) k = some v := by
  induction a with
  | nil => simp [dictGet] at h
  | cons hd tl ih =>
    obtain ⟨k0, v0⟩ := hd
    by_cases hk : k0 = k
    · simp [dictGet, hk] at h ⊢
      exact h
    · simp [dictGet, hk] at h ⊢
      exact ih h

theorem dictGet_append_none {a : Dict} (b : Dict) {k : String}
    (h : dictGet a k = none) : dictGet (a ++ b) k = dictGet b k := by
  induction a with
  | nil => rfl
  | cons hd tl ih =>
    obtain ⟨k0, v0⟩ := hd
    by_cases hk : k0 = k
    · simp [dictGet, hk] at h
    · simp [dictGet, hk] at h ⊢
      exact ih h

theorem dictGet_of_mem_of_nodup {d : Dict} (hnd : (dictKeys d).Nodup)
    {k v : String} (h : (k, v) ∈ d) : dictGet d k = some v := by
  induction d with
  | nil => cases h
  | cons hd tl ih =>
    obtain ⟨k0, v0⟩ := hd
    rw [List.mem_cons] at h
    rcases h with h | h
    · cases h
      simp [dictGet]
    · have hk0 : k0 ∉ dictKeys tl := (List.nodup_cons.mp hnd).1
      have hkmem : k ∈ dictKeys tl := List.mem_map.mpr ⟨(k, v), h, rfl⟩
      have hne : k0 ≠ k := fun hk => hk0 (hk ▸ hkmem)
      simp [dictGet, hne]
      exact ih (List.nodup_cons.mp hnd).2 h

/-! ### Event-filter lemmas -/

theorem eventsFor_append (p : String) (a b : List ChangeEvent) :
    eventsFor p (a ++ b) = eventsFor p a ++ eventsFor p b := by
  simp [eventsFor, List.filter_append]

theorem eventsFor_entryEvents_self (old : Dict) (n g : String) :
    eventsFor n (entryEvents old n g) = entryEvents old n g := by
  simp only [entryEvents]
  split_ifs <;> simp [eventsFor, eventPlayer]

theorem eventsFor_entryEvents_ne (old : Dict) {p n : String} (hp : p ≠ n) (g : String) :
    eventsFor p (entryEvents old n g) = [] := by
  simp only [entryEvents]
  split_ifs <;> simp [eventsFor, eventPlayer, hp.symm]

theorem eventsFor_diff_guilds_of_not_mem (old : Dict) {p : String} {new : Dict}
    (hp : p ∉ dictKeys new) : eventsFor p (diff_guilds old new) = [] := by
  induction new with
  | nil => rfl
  | cons hd rest ih =>
    obtain ⟨n, g⟩ := hd
    have hpn : p ≠ n := by
      intro h
      exact hp (h ▸ List.mem_cons_self _ _)
    have hrest : p ∉ dictKeys rest := fun hm => hp (List.mem_cons_of_mem _ hm)
    rw [diff_guilds, eventsFor_append, eventsFor_entryEvents_ne old hpn, ih hrest]
    rfl

theorem entryEvents_eq_classifyChange (old : Dict) (n g : String) :
    entryEvents old n g = classifyChange n (dictGetD old n "") g := by
  simp only [entryEvents, classifyChange]
  by_cases h1 : dictGetD old n "" = g
  · simp [h1]
  · have h1' : ¬ g = dictGetD old n "" := fun h => h1 h.symm
    by_cases h2 : dictGetD old n "" = ""
    · have h3 : ¬ g = "" := fun hg => h1 (by rw [h2, hg])
      have h3' : ¬ "" = g := fun hg => h3 hg.symm
      simp [h1, h1', h2, h3, h3']
    · have h2' : ¬ "" = dictGetD old n "" := fun h => h2 h.symm
      by_cases h3 : g = ""
      · simp [h1, h1', h2, h2', h3]
      · simp [h1, h1', h2, h2', h3]

/-! ### Reconciler lemmas -/

theorem diff_guilds_eq_nil_of_getD (M : Dict) {new : Dict}
    (h : ∀ kv ∈ new, dictGetD M kv.1 "" = kv.2) : diff_guilds M new = [] := by
  induction new with
  | nil => rfl
  | cons hd rest ih =>
    obtain ⟨n, g⟩ := hd
    have hhd : dictGetD M n "" = g := h (n, g) (List.mem_cons_self _ _)
    rw [diff_guilds]
    have hentry : entryEvents M n g = [] := by
      simp only [entryEvents]
      simp [hhd]
    rw [hentry, ih (fun kv hkv => h kv (List.mem_cons_of_mem _ hkv))]
    rfl

theorem diff_guilds_nil_left (s : Dict) : diff_guilds [] s = joinedOnly s := by
  induction s with
  | nil => rfl
  | cons hd rest ih =>
    obtain ⟨n, g⟩ := hd
    rw [diff_guilds, ih]
    by_cases hg : g = ""
    · simp [entryEvents, dictGetD, dictGet, joinedOnly, hg]
    · have hg' : ¬ "" = g := fun h => hg h.symm
      simp [entryEvents, dictGetD, dictGet, joinedOnly, hg, hg']

/-! ### Merged-state lemmas -/

theorem mergeFn_fst (new : Dict) (kv : String × String) : (mergeFn new kv).1 = kv.1 := by
  unfold mergeFn
  cases h : dictGet new kv.1 <;> rfl

theorem dictGet_cons (x : String × String) (l : Dict) (k : String) :
    dictGet (x :: l) k = if x.1 = k then some x.2 else dictGet l k := by
  obtain ⟨a, b⟩ := x
  rfl

theorem dictGet_map_mergeFn_of_mem {old : Dict} (new : Dict) {k g : String}
    (hk : k ∈ dictKeys old) (h : dictGet new k = some g) :
    dictGet (old.map (mergeFn new)) k = some g := by
  induction old with
  | nil => cases hk
  | cons hd tl ih =>
    by_cases hk0 : hd.1 = k
    · have hv : mergeFn new hd = (hd.1, g) := by
        unfold mergeFn
        rw [hk0, h]
      rw [List.map_cons, dictGet_cons, hv, if_pos hk0]
    · have hmem : k ∈ dictKeys tl := by
        rcases List.mem_cons.mp hk with h' | h'
        · exact absurd h'.symm hk0
        · exact h'
      rw [List.map_cons, dictGet_cons, mergeFn_fst, if_neg hk0]
      exact ih hmem

theorem dictGet_map_mergeFn_of_not_mem {old : Dict} (new : Dict) {k : String}
    (hk : k ∉ dictKeys old) : dictGet (old.map (mergeFn new)) k = none := by
  induction old with
  | nil => rfl
  | cons hd tl ih =>
    have hk0 : hd.1 ≠ k := fun h => hk (h ▸ List.mem_cons_self _ _)
    have htl : k ∉ dictKeys tl := fun hm => hk (List.mem_cons_of_mem _ hm)
    rw [List.map_cons, dictGet_cons, mergeFn_fst, if_neg hk0]
    exact ih htl

theorem dictGet_filter_not_old (old : Dict) {new : Dict} {k : String}
    (hk : k ∉ dictKeys old) :
    dictGet (new.filter (fun kv => !(dictKeys old).contains kv.1)) k = dictGet new k := by
  induction new with
  | nil => rfl
  | cons hd tl ih =>
    by_cases hc : hd.1 ∈ dictKeys old
    · have hpred : (!(dictKeys old).contains hd.1) = false := by
        simp [List.elem_iff, hc]
      have hk0 : hd.1 ≠ k := fun h => hk (h ▸ hc)
      rw [List.filter_cons, dictGet_cons, if_neg hk0]
      simp only [hpred]
      rw [if_neg (by simp)]
      exact ih
    · have hpred : (!(dictKeys old).contains hd.1) = true := by
        simp [List.elem_iff, hc]
      rw [List.filter_cons, dictGet_cons]
      simp only [hpred]
      rw [if_pos (by simp), dictGet_cons]
      by_cases hk0 : hd.1 = k
      · rw [if_pos hk0, if_pos hk0]
      · rw [if_neg hk0, if_neg hk0]
        exact ih

theorem dictGet_mergedState (old : Dict) {new : Dict} {k g : String}
    (h : dictGet new k = some g) : dictGet (mergedState old new) k = some g := by
  unfold mergedState
  by_cases hk : k ∈ dictKeys old
  · exact dictGet_append_some _ (dictGet_map_mergeFn_of_mem new hk h)
  · rw [dictGet_append_none _ (dictGet_map_mergeFn_of_not_mem new hk),
      dictGet_filter_not_old old hk]
    exact h

/-! ### Key-sorting lemmas -/

theorem dictGet_insertSorted (kv : String × String) (d : Dict) (k : String) :
    dictGet (insertSorted kv d) k = dictGet (kv :: d) k := by
  induction d with
  | nil => rfl
  | cons hd tl ih =>
    unfold insertSorted
    by_cases hle : kv.1 ≤ hd.1
    · rw [if_pos hle]
    · rw [if_neg hle]
      have hlt : hd.1 < kv.1 := lt_of_not_le hle
      by_cases hk : hd.1 = k
      · have hkvk : kv.1 ≠ k := fun h => absurd (h ▸ hlt : hd.1 < k) (hk ▸ lt_irrefl k)
        rw [dictGet_cons, if_pos hk, dictGet_cons, if_neg hkvk, dictGet_cons, if_pos hk]
      · rw [dictGet_cons, if_neg hk, ih, dictGet_cons, dictGet_cons, dictGet_cons,
          if_neg hk]

theorem dictGet_sortKeys (d : Dict) (k : String) :
    dictGet (sortKeys d) k = dictGet d k := by
  induction d with
  | nil => rfl
  | cons hd tl ih =>
    rw [sortKeys, dictGet_insertSorted, dictGet_cons, dictGet_cons, ih]

/-- Appending a binding of a fresh key to the empty guild changes no
default-`""` lookup. -/
theorem dictGetD_append_empty (old : Dict) (p k : String) :
    dictGetD (old ++ [(p, "")]) k "" = dictGetD old k "" := by
  unfold dictGetD
  cases h : dictGet old k with
  | some v => rw [dictGet_append_some _ h]
  | none =>
    rw [dictGet_append_none _ h, dictGet_cons]
    by_cases hp : p = k
    · rw [if_pos hp]
      rfl
    · rw [if_neg hp]
      rfl

theorem entryEvents_append_empty (old : Dict) (p n g : String) :
    entryEvents (old ++ [(p, "")]) n g = entryEvents old n g := by
  simp only [entryEvents, dictGetD_append_empty]

/-! ## Claim C1: first-run baseline suppression -/

/-- Counterexample to claim C1: with an empty loaded state and snapshot
`{"Alice": "Foo"}`, the run computes and posts a Joined event — it does not
emit zero events and zero notifications. -/
theorem first_run_counterexample :
    eventsOf (mainRun (Except.ok [("Alice", "Foo")]) (FileState.valid [])
        (some "hook") true true) = [ChangeEvent.joined "Alice" "Foo"] ∧
    postedOf (mainRun (Except.ok [("Alice", "Foo")]) (FileState.valid [])
        (some "hook") true true) = [ChangeEvent.joined "Alice" "Foo"] ∧
    ([ChangeEvent.joined "Alice" "Foo"] : List ChangeEvent) ≠ [] :=
  ⟨rfl, rfl, by decide⟩

/-- Claim C1 as amended: when the loaded state is empty the run persists
exactly the snapshot `S` and exits 0, but performs no suppression: it emits
one Joined event per snapshot player with a non-empty guild. -/
theorem first_run_amended (S : Dict) (sf : FileState) (w : Option String)
    (postOk : Bool) (hload : load_state sf = Except.ok []) :
    runExitCode (mainRun (Except.ok S) sf w postOk true) = 0 ∧
    savedOf (mainRun (Except.ok S) sf w postOk true) = some S ∧
    eventsOf (mainRun (Except.ok S) sf w postOk true) = joinedOnly S := by
  unfold mainRun
  rw [hload]
  exact ⟨rfl, rfl, diff_guilds_nil_left S⟩

/-- Witness for the amended claim C1, on a first run over `{"Alice": "Foo"}`. -/
theorem first_run_amended_witness :
    load_state FileState.missing = Except.ok [] ∧
    (runExitCode (mainRun (Except.ok [("Alice", "Foo")]) FileState.missing
        (some "hook") true true) = 0 ∧
     savedOf (mainRun (Except.ok [("Alice", "Foo")]) FileState.missing
        (some "hook") true true) = some [("Alice", "Foo")] ∧
     eventsOf (mainRun (Except.ok [("Alice", "Foo")]) FileState.missing
        (some "hook") true true) = joinedOnly [("Alice", "Foo")]) :=
  ⟨rfl, first_run_amended [("Alice", "Foo")] FileState.missing (some "hook") true rfl⟩

/-! ## Claim C2: merged-state frame preservation -/

/-- Counterexample to claim C2: with `P = {"Alice": "Foo"}` and an empty
snapshot, the run persists the empty mapping — the entry for Alice is
deleted instead of preserved. -/
theorem merged_frame_counterexample :
    savedOf (mainRun (Except.ok []) (FileState.valid [("Alice", "Foo")])
        none true true) = some [] ∧
    dictGet [("Alice", "Foo")] "Alice" = some "Foo" ∧
    dictGet [] "Alice" = none :=
  ⟨rfl, by decide, rfl⟩

/-- Claim C2 as amended: the state persisted by a successful run is exactly
the snapshot `S` (so restricted to keys of `S` it equals `S`), and keys of
the previous state missing from `S` are dropped rather than preserved. -/
theorem merged_frame_amended (P S : Dict) (sf : FileState) (w : Option String)
    (postOk : Bool) (hload : load_state sf = Except.ok P) :
    savedOf (mainRun (Except.ok S) sf w postOk true) = some S ∧
    runExitCode (mainRun (Except.ok S) sf w postOk true) = 0 := by
  unfold mainRun
  rw [hload]
  exact ⟨rfl, rfl⟩

/-- Witness for the amended claim C2. -/
theorem merged_frame_amended_witness :
    load_state (FileState.valid [("Alice", "Foo")]) = Except.ok [("Alice", "Foo")] ∧
    (savedOf (mainRun (Except.ok [("Bob", "Bar")]) (FileState.valid [("Alice", "Foo")])
        none true true) = some [("Bob", "Bar")] ∧
     runExitCode (mainRun (Except.ok [("Bob", "Bar")]) (FileState.valid [("Alice", "Foo")])
        none true true) = 0) :=
  ⟨rfl, merged_frame_amended [("Alice", "Foo")] [("Bob", "Bar")]
      (FileState.valid [("Alice", "Foo")]) none true rfl⟩

/-! ## Claim C3: event emission iff guild change -/

/-- Claim C3: past the first run, the reconciler emits exactly one event for
player `p` iff `p` is in the snapshot and its guild differs from the stored
value (an absent entry read as `""`), classified Joined when the old value is
empty, Left when the new one is, and Transferred when both are non-empty. -/
theorem emission_iff_change (old new : Dict) (hold : old ≠ [])
    (hnd : (dictKeys new).Nodup) (p : String) :
    eventsFor p (diff_guilds old new) =
      (match dictGet new p with
       | none => []
       | some ng => classifyChange p (dictGetD old p "") ng) := by
  clear hold
  revert hnd
  induction new with
  | nil => intro _; rfl
  | cons hd rest ih =>
    intro hnd
    obtain ⟨n, g⟩ := hd
    rw [show dictKeys ((n, g) :: rest) = n :: dictKeys rest from rfl,
      List.nodup_cons] at hnd
    by_cases hp : p = n
    · subst hp
      rw [diff_guilds, eventsFor_append, eventsFor_entryEvents_self,
        eventsFor_diff_guilds_of_not_mem old hnd.1, List.append_nil,
        entryEvents_eq_classifyChange, dictGet_cons, if_pos rfl]
    · rw [diff_guilds, eventsFor_append, eventsFor_entryEvents_ne old hp,
        List.nil_append, dictGet_cons, if_neg (fun h => hp h.symm)]
      exact ih hnd.2

/-- Witness for claim C3: a guild transfer is reported exactly once. -/
theorem emission_iff_change_witness :
    ([("Alice", "Foo")] : Dict) ≠ [] ∧ (dictKeys [("Alice", "Bar")]).Nodup ∧
    eventsFor "Alice" (diff_guilds [("Alice", "Foo")] [("Alice", "Bar")]) =
      (match dictGet [("Alice", "Bar")] "Alice" with
       | none => []
       | some ng => classifyChange "Alice" (dictGetD [("Alice", "Foo")] "Alice" "") ng) :=
  ⟨by decide, by decide,
    emission_iff_change [("Alice", "Foo")] [("Alice", "Bar")] (by decide) (by decide) "Alice"⟩

/-! ## Claim C4: corrupt-state recovery -/

/-- Counterexample to claim C4: on malformed content `load_state` does not
return the empty mapping, and the run aborts with a non-zero status. -/
theorem corrupt_state_counterexample :
    load_state FileState.malformed ≠ Except.ok ([] : Dict) ∧
    runExitCode (mainRun (Except.ok [("Alice", "Foo")]) FileState.malformed
        (some "hook") true true) = 1 :=
  ⟨fun h => Except.noConfusion h, rfl⟩

/-- Claim C4 as amended: `load_state` returns the stored mapping for a valid
file and the empty mapping only when the file does not exist; malformed
content raises, the exception is not caught, and the run fails. -/
theorem corrupt_state_amended :
    (∀ d : Dict, load_state (FileState.valid d) = Except.ok d) ∧
    load_state FileState.missing = Except.ok [] ∧
    ∀ (S : Dict) (w : Option String) (postOk saveOk : Bool),
      mainRun (Except.ok S) FileState.malformed w postOk saveOk
        = Except.error PyExn.jsonDecodeError :=
  ⟨fun _ => rfl, rfl, fun _ _ _ _ => rfl⟩

/-! ## Claim C5: atomic durable save -/

/-- Counterexample to claim C5: the save trace writes straight into the
target path with no rename, and stopping after its first operation leaves
the previously valid file unreadable. -/
theorem atomic_save_counterexample :
    save_state "players.json" [("Alice", "Foo")]
      = [FsOp.openTruncate "players.json",
         FsOp.writeContent "players.json" [("Alice", "Foo")]] ∧
    (save_state "players.json" [("Alice", "Foo")]).all
      (fun op => match op with
        | FsOp.renameFile _ _ => false
        | _ => true) = true ∧
    runOps (fun _ => FileState.valid [("Alice", "Old")])
      ((save_state "players.json" [("Alice", "Foo")]).take 1) "players.json"
      = FileState.malformed :=
  ⟨rfl, rfl, by decide⟩

/-- Claim C5 as amended: `save_state` truncates the target file in place and
then writes the key-sorted mapping directly into it, with no temporary file
and no rename; an interruption between the two steps leaves an unreadable
file where the previous state was, while the completed sequence leaves the
new mapping. -/
theorem atomic_save_amended (path : String) (data : Dict) (fs : String → FileState) :
    save_state path data
      = [FsOp.openTruncate path, FsOp.writeContent path (sortKeys data)] ∧
    runOps fs ((save_state path data).take 1) path = FileState.malformed ∧
    runOps fs (save_state path data) path = FileState.valid (sortKeys data) := by
  refine ⟨rfl, ?_, ?_⟩
  · show applyOp fs (FsOp.openTruncate path) path = FileState.malformed
    simp [applyOp]
  · show applyOp (applyOp fs (FsOp.openTruncate path))
        (FsOp.writeContent path (sortKeys data)) path = FileState.valid (sortKeys data)
    simp [applyOp]

/-! ## Claim C6: absent players are silent -/

/-- Claim C6: no event is produced for a player missing from the snapshot,
whatever the previous state holds for that player. -/
theorem absent_players_silent (old new : Dict) (p : String) (hp : p ∉ dictKeys new) :
    eventsFor p (diff_guilds old new) = [] :=
  eventsFor_diff_guilds_of_not_mem old hp

/-- Witness for claim C6: Bob is tracked but off the snapshot, no event. -/
theorem absent_players_silent_witness :
    ("Bob" ∉ dictKeys [("Alice", "Foo")]) ∧
    eventsFor "Bob" (diff_guilds [("Bob", "Momentum")] [("Alice", "Foo")]) = [] :=
  ⟨by decide, absent_players_silent [("Bob", "Momentum")] [("Alice", "Foo")] "Bob" (by decide)⟩

/-! ## Claim C7: notification failure is non-fatal, save failure is -/

/-- Claim C7: when fetch and parse succeed (and the state loads), a failed
webhook post still lets the run save the snapshot and exit 0, while a failed
save makes it exit 1. -/
theorem notify_nonfatal_save_fatal (S P : Dict) (sf : FileState) (w : Option String)
    (postOk : Bool) (hload : load_state sf = Except.ok P) :
    runExitCode (mainRun (Except.ok S) sf w false true) = 0 ∧
    savedOf (mainRun (Except.ok S) sf w false true) = some S ∧
    runExitCode (mainRun (Except.ok S) sf w postOk false) = 1 := by
  unfold mainRun
  rw [hload]
  exact ⟨rfl, rfl, rfl⟩

/-- Witness for claim C7. -/
theorem notify_nonfatal_save_fatal_witness :
    load_state FileState.missing = Except.ok [] ∧
    (runExitCode (mainRun (Except.ok [("Alice", "Foo")]) FileState.missing
        (some "hook") false true) = 0 ∧
     savedOf (mainRun (Except.ok [("Alice", "Foo")]) FileState.missing
        (some "hook") false true) = some [("Alice", "Foo")] ∧
     runExitCode (mainRun (Except.ok [("Alice", "Foo")]) FileState.missing
        (some "hook") false false) = 1) :=
  ⟨rfl, notify_nonfatal_save_fatal [("Alice", "Foo")] [] FileState.missing
      (some "hook") false rfl⟩

/-! ## Claim C8: save/load round-trip -/

/-- Claim C8: saving any mapping and loading the same path yields a mapping
equal to the input — the file holds the key-sorted entries, whose lookups
agree with the input everywhere. -/
theorem save_load_roundtrip (path : String) (data : Dict) (fs : String → FileState) :
    load_state (runOps fs (save_state path data) path) = Except.ok (sortKeys data) ∧
    ∀ k, dictGet (sortKeys data) k = dictGet data k := by
  constructor
  · show load_state (applyOp (applyOp fs (FsOp.openTruncate path))
        (FsOp.writeContent path (sortKeys data)) path) = Except.ok (sortKeys data)
    simp [applyOp, load_state]
  · exact dictGet_sortKeys data

/-! ## Claim C9: reconcile idempotence -/

/-- Claim C9: diffing a snapshot against the merged result of a previous
reconcile with that same snapshot yields no events. -/
theorem reconcile_idempotent (old new : Dict) (hnd : (dictKeys new).Nodup) :
    diff_guilds (mergedState old new) new = [] := by
  apply diff_guilds_eq_nil_of_getD
  intro kv hkv
  have h1 : dictGet new kv.1 = some kv.2 := dictGet_of_mem_of_nodup hnd hkv
  have h2 := dictGet_mergedState old h1
  unfold dictGetD
  rw [h2]
  rfl

/-- Witness for claim C9. -/
theorem reconcile_idempotent_witness :
    (dictKeys [("Alice", "Bar"), ("Bob", "")]).Nodup ∧
    diff_guilds (mergedState [("Alice", "Foo"), ("Carol", "Baz")]
        [("Alice", "Bar"), ("Bob", "")]) [("Alice", "Bar"), ("Bob", "")] = [] :=
  ⟨by decide,
    reconcile_idempotent [("Alice", "Foo"), ("Carol", "Baz")]
      [("Alice", "Bar"), ("Bob", "")] (by decide)⟩

/-! ## Claim C10: absent equals empty-string for reconciliation -/

/-- Claim C10: extending the previous state with a never-seen player mapped
to `""` changes nothing about the emitted events. -/
theorem absent_eq_empty_guild (old new : Dict) (p : String) (hp : p ∉ dictKeys old) :
    diff_guilds (old ++ [(p, "")]) new = diff_guilds old new := by
  induction new with
  | nil => rfl
  | cons hd rest ih =>
    obtain ⟨n, g⟩ := hd
    rw [diff_guilds, diff_guilds, entryEvents_append_empty, ih]

/-- Witness for claim C10. -/
theorem absent_eq_empty_guild_witness :
    ("Bob" ∉ dictKeys [("Alice", "Foo")]) ∧
    diff_guilds ([("Alice", "Foo")] ++ [("Bob", "")]) [("Alice", "Bar"), ("Bob", "Momentum")]
      = diff_guilds [("Alice", "Foo")] [("Alice", "Bar"), ("Bob", "Momentum")] :=
  ⟨by decide,
    absent_eq_empty_guild [("Alice", "Foo")] [("Alice", "Bar"), ("Bob", "Momentum")]
      "Bob" (by decide)⟩

end GuildMovements
